import Mathlib

/-! Scoreboard structures (`scoreboard.h`): a shallow embedding.

The header declares the scoreboard's classes.  The member functions whose bodies are
written in the header (the customizable properties, the margin and column getters) are
transcribed from it.  Member functions that the header only declares are modelled from
the written specification; each such definition says so in its doc comment.
-/

/-! ## Customize flags -/

/-- The enum `CustomizeScoreboardFlag` (scoreboard.h, lines 108-114). -/
inductive CustomizeScoreboardFlag where
  | CUSTOMIZE_TEXT
  | CUSTOMIZE_BORDERS
  | CUSTOMIZE_BACKGROUND
  | CUSTOMIZE_ROWBACKGROUNDS
  deriving DecidableEq, Repr

/-- The value of each enumerator, `1 << 0` to `1 << 3`. -/
def CustomizeScoreboardFlag.toNat : CustomizeScoreboardFlag → Nat
  | .CUSTOMIZE_TEXT => 1 <<< 0
  | .CUSTOMIZE_BORDERS => 1 <<< 1
  | .CUSTOMIZE_BACKGROUND => 1 <<< 2
  | .CUSTOMIZE_ROWBACKGROUNDS => 1 <<< 3

/-- The shift amount `k` in each enumerator's initialiser `1 << k`. -/
def CustomizeScoreboardFlag.shift : CustomizeScoreboardFlag → Nat
  | .CUSTOMIZE_TEXT => 0
  | .CUSTOMIZE_BORDERS => 1
  | .CUSTOMIZE_BACKGROUND => 2
  | .CUSTOMIZE_ROWBACKGROUNDS => 3

/-- The two's-complement bit pattern of a 32-bit `int`, as a number below `2 ^ 32`. -/
def intBits (x : Int) : Nat := (x % 2 ^ 32).toNat

/-- The expression `sb_customizeflags & flag` on the `int` variable and the enumerator:
the bitwise and of the two bit patterns. -/
def customizeFlagsAnd (sb_customizeflags : Int) (flag : CustomizeScoreboardFlag) : Nat :=
  intBits sb_customizeflags &&& flag.toNat

/-- The C++ truth value of `sb_customizeflags & flag`: the bitwise and is non-zero. -/
def flagIsSet (sb_customizeflags : Int) (flag : CustomizeScoreboardFlag) : Bool :=
  decide (customizeFlagsAnd sb_customizeflags flag ≠ 0)

/-! ## Configuration variables -/

/-- A reference to a configuration variable (`const CVar &cvar`): the variable is owned by
the external store and is named here by its console name. -/
abbrev CVarRef := String

/-- The external configuration-variable store for variables of type `CVar`: the current
value behind every reference. -/
abbrev CVarStore (CVar : Type) := CVarRef → CVar

/-- Overwrite the value behind one reference, leaving every other variable alone. -/
def CVarStore.set {CVar : Type} (store : CVarStore CVar) (ref : CVarRef) (v : CVar) :
    CVarStore CVar :=
  fun r => if r = ref then v else store r

/-- An integer configuration variable (`FIntCVar`): its current value. -/
structure FIntCVar where
  Value : Int
  deriving DecidableEq, Repr

/-- The member `GetGenericRep( CVAR_Int ).Int` of an integer configuration variable. -/
def FIntCVar.GetGenericRepInt (cvar : FIntCVar) : Int := cvar.Value

/-- A string configuration variable (`FStringCVar`): its current value. -/
structure FStringCVar where
  Value : String
  deriving DecidableEq, Repr

/-- The text colour enum `EColorRange` of `v_text.h`, by its integer value; a
`static_cast<EColorRange>` of an `int` keeps that value. -/
abbrev EColorRange := Int

/-! ## Columns (scoreboard.h, lines 212-388) -/

/-- Modelled from the spec: the horizontal alignment of a column.  The member
`HORIZALIGN_e Alignment` is declared in the header, its enum is in `scoreboard_enums.h`;
the spec names the three modes left, center and right. -/
inductive HORIZALIGN_e where
  | HORIZALIGN_LEFT
  | HORIZALIGN_CENTER
  | HORIZALIGN_RIGHT
  deriving DecidableEq, Repr

/-- Modelled from the spec: `SCOREBOARD_CenterAlign( biggerSize, smallerSize )`, declared at
line 646 with its body in `scoreboard.cpp`.  The spec: the center-align offset is
`(W - C) / 2`, integer floor. -/
def SCOREBOARD_CenterAlign (biggerSize smallerSize : Int) : Int :=
  Int.fdiv (biggerSize - smallerSize) 2

/-- The members of `ScoreColumn` that alignment reads: `Alignment` and `ulWidth`. -/
structure ScoreColumn where
  Alignment : HORIZALIGN_e
  ulWidth : Nat

/-- Modelled from the spec: `ScoreColumn::GetAlignmentPosition( ulContentWidth )`, declared
at line 228 with its body in `scoreboard.cpp`.  The spec: given the column width `W` and the
content width `C`, the left-align offset is 0, the right-align offset is `W - C` and the
center-align offset is `(W - C) / 2`. -/
def ScoreColumn.GetAlignmentPosition (column : ScoreColumn) (ulContentWidth : Nat) : Int :=
  match column.Alignment with
  | .HORIZALIGN_LEFT => 0
  | .HORIZALIGN_CENTER => SCOREBOARD_CenterAlign column.ulWidth ulContentWidth
  | .HORIZALIGN_RIGHT => (column.ulWidth : Int) - ulContentWidth

/-- The constant `CountryFlagScoreColumn::NUM_FLAGS_PER_SIDE` (line 349): the `CTRYFLAG`
texture is a 16x16 grid of country flag icons. -/
def CountryFlagScoreColumn.NUM_FLAGS_PER_SIDE : Nat := 16

/-- Modelled from the spec: the atlas cell `CountryFlagScoreColumn::DrawValue` draws, whose
body is in `scoreboard.cpp`.  The spec: `index = code; (row,col) = (index / 16, index % 16)`,
with 16 the constant `NUM_FLAGS_PER_SIDE`. -/
def CountryFlagScoreColumn.flagCell (index : Nat) : Nat × Nat :=
  (index / CountryFlagScoreColumn.NUM_FLAGS_PER_SIDE,
   index % CountryFlagScoreColumn.NUM_FLAGS_PER_SIDE)

/-- Modelled from the spec: what a composite column's layout reads off one of its data
sub-columns, the width of its content and its explicitly configured minimum width.  The
header declares `TArray<DataScoreColumn *> SubColumns`; the widths are computed in
`scoreboard.cpp`. -/
structure SubColumn where
  contentWidth : Nat
  minimumWidth : Nat
  deriving DecidableEq, Repr

/-- The members of `CompositeScoreColumn` that its layout uses: `SubColumns`,
`ulGapBetweenSubColumns` (lines 382-383) and the inherited `ulWidth`. -/
structure CompositeScoreColumn where
  SubColumns : List SubColumn
  ulGapBetweenSubColumns : Nat
  ulWidth : Nat
  deriving DecidableEq, Repr

/-- The content width of the sub-column at an index (0 past the end of the array). -/
def CompositeScoreColumn.contentWidthAt (c : CompositeScoreColumn) (ulSubColumn : Nat) : Nat :=
  match c.SubColumns[ulSubColumn]? with
  | some sub => sub.contentWidth
  | none => 0

/-- Modelled from the spec: `CompositeScoreColumn::GetSubColumnWidth( ulSubColumn,
ulValueWidth )`, declared at line 387 with its body in `scoreboard.cpp`.  The spec: each
sub-column's width is the max of its own content width and any explicitly configured
minimum. -/
def CompositeScoreColumn.GetSubColumnWidth (c : CompositeScoreColumn)
    (ulSubColumn ulValueWidth : Nat) : Nat :=
  match c.SubColumns[ulSubColumn]? with
  | some sub => max ulValueWidth sub.minimumWidth
  | none => 0

/-- Modelled from the spec: the width that `CompositeScoreColumn::Update` (declared at line
375, body in `scoreboard.cpp`) stores in `ulWidth`.  The spec: the width is the sum of the
sub-column widths plus the gap between neighbouring sub-columns.  The loop walks the
sub-columns left to right and adds the gap in front of every sub-column but the first. -/
def CompositeScoreColumn.Update (c : CompositeScoreColumn) : CompositeScoreColumn :=
  { c with
    ulWidth := (List.range c.SubColumns.length).foldl
      (fun ulWidth ulSubColumn =>
        (if 0 < ulSubColumn then ulWidth + c.ulGapBetweenSubColumns else ulWidth) +
          c.GetSubColumnWidth ulSubColumn (c.contentWidthAt ulSubColumn)) 0 }

/-- A composite column of three sub-columns with a gap of 4 and a stale width. -/
def sampleComposite : CompositeScoreColumn :=
  { SubColumns := [⟨10, 0⟩, ⟨3, 8⟩, ⟨7, 7⟩], ulGapBetweenSubColumns := 4, ulWidth := 0 }

/-- A composite column of a single sub-column with a gap of 4. -/
def sampleSingleComposite : CompositeScoreColumn :=
  { SubColumns := [⟨5, 12⟩], ulGapBetweenSubColumns := 4, ulWidth := 99 }

/-! ### Column names (scoreboard.h, lines 219-221) -/

/-- The name members of `ScoreColumn`: `InternalName` (the characters of the `FName`),
`DisplayName` and `ShortName`. -/
structure ScoreColumnNames where
  InternalName : String
  DisplayName : String
  ShortName : String
  deriving DecidableEq, Repr

/-- The member `GetInternalName`: `return InternalName.GetChars( );`.  A `const char *` is
`none` when null. -/
def ScoreColumnNames.GetInternalName (c : ScoreColumnNames) : Option String :=
  some c.InternalName

/-- The member `GetDisplayName`:
`return DisplayName.Len( ) > 0 ? DisplayName.GetChars( ) : NULL;`. -/
def ScoreColumnNames.GetDisplayName (c : ScoreColumnNames) : Option String :=
  if c.DisplayName.length > 0 then some c.DisplayName else none

/-- The member `GetShortName`:
`return ShortName.Len( ) > 0 ? ShortName.GetChars( ) : NULL;`. -/
def ScoreColumnNames.GetShortName (c : ScoreColumnNames) : Option String :=
  if c.ShortName.length > 0 then some c.ShortName else none

/-- A column with an internal and a display name and no short name. -/
def sampleFragsColumn : ScoreColumnNames :=
  { InternalName := "Frags", DisplayName := "Frags scored", ShortName := "" }

/-! ## Margins (scoreboard.h, lines 399-467) -/

/-- The enum `MARGINTYPE_e` (scoreboard.h, lines 93-102). -/
inductive MARGINTYPE_e where
  | MARGINTYPE_HEADER_OR_FOOTER
  | MARGINTYPE_TEAM
  | MARGINTYPE_SPECTATOR
  | MARGINTYPE_ALL
  deriving DecidableEq, Repr

/-- The class `ScoreMargin`, by its data members: the command block (a sequence of
commands of some type `BaseCommand`), `Type` (here `MarginType`, the name of the
constructor argument that fills it), `Name`, `ulWidth`, `ulHeight` and `relX`.
The two `ULONG` members hold numbers below `2 ^ w`, with `w` the width of `ULONG`. -/
structure ScoreMargin (BaseCommand : Type) where
  Block : List BaseCommand
  MarginType : MARGINTYPE_e
  Name : String
  ulWidth : Nat
  ulHeight : Nat
  relX : Int

/-- The member `GetType`. -/
def ScoreMargin.GetType {BaseCommand : Type} (m : ScoreMargin BaseCommand) : MARGINTYPE_e :=
  m.MarginType

/-- The member `GetName`: `return Name.GetChars( );`. -/
def ScoreMargin.GetName {BaseCommand : Type} (m : ScoreMargin BaseCommand) : String :=
  m.Name

/-- The member `GetWidth`. -/
def ScoreMargin.GetWidth {BaseCommand : Type} (m : ScoreMargin BaseCommand) : Nat :=
  m.ulWidth

/-- The member `GetHeight`. -/
def ScoreMargin.GetHeight {BaseCommand : Type} (m : ScoreMargin BaseCommand) : Nat :=
  m.ulHeight

/-- The member `GetRelX`. -/
def ScoreMargin.GetRelX {BaseCommand : Type} (m : ScoreMargin BaseCommand) : Int :=
  m.relX

/-- The member `void IncreaseHeight( ULONG ulExtraHeight ) { ulHeight += ulExtraHeight; }`,
for a `ULONG` of `w` bits: unsigned addition wraps modulo `2 ^ w`. -/
def ScoreMargin.IncreaseHeight {BaseCommand : Type} (w : Nat) (m : ScoreMargin BaseCommand)
    (ulExtraHeight : Nat) : ScoreMargin BaseCommand :=
  { m with ulHeight := (m.ulHeight + ulExtraHeight) % 2 ^ w }

/-- A main header margin of width 320 and height 40 with three commands. -/
def sampleMargin : ScoreMargin Nat :=
  { Block := [1, 2, 3], MarginType := .MARGINTYPE_HEADER_OR_FOOTER, Name := "MainHeader",
    ulWidth := 320, ulHeight := 40, relX := -160 }

namespace Scoreboard

/-! ## Customizable properties (scoreboard.h, lines 485-526) -/

/-- The template `Scoreboard::CustomizableProperty<Type, CVar>`: a reference to a
configuration variable, a customize flag and the stored (SCORINFO) value. -/
structure CustomizableProperty (T CVar : Type) where
  cvar : CVarRef
  flag : CustomizeScoreboardFlag
  value : T

/-- The member `void operator= ( const Type other ) { value = other; }`. -/
def CustomizableProperty.operatorAssign {T CVar : Type} (p : CustomizableProperty T CVar)
    (other : T) : CustomizableProperty T CVar :=
  { p with value := other }

/-- The member `operator Type( ) const`:
`( sb_customizeflags & flag ) ? static_cast<Type>( cvar ) : value`.
`cast` is the conversion `static_cast<Type>` from the variable type. -/
def CustomizableProperty.operatorType {T CVar : Type} (cast : CVar → T)
    (sb_customizeflags : Int) (store : CVarStore CVar) (p : CustomizableProperty T CVar) : T :=
  if flagIsSet sb_customizeflags p.flag then cast (store p.cvar) else p.value

/-- The struct `Scoreboard::CustomizableFont`, derived from
`CustomizableProperty<FFont *, FStringCVar>`.  A `FFont *` is `none` when null. -/
structure CustomizableFont (FFont : Type) extends
    CustomizableProperty (Option FFont) FStringCVar

/-- The member `CustomizableFont::operator FFont *( ) const`.  `V_GetFont` is the external
font lookup, which answers null for a name that is no font. -/
def CustomizableFont.operatorFFont {FFont : Type} (V_GetFont : String → Option FFont)
    (sb_customizeflags : Int) (store : CVarStore FStringCVar) (p : CustomizableFont FFont) :
    Option FFont :=
  if flagIsSet sb_customizeflags p.flag then
    match V_GetFont (store p.cvar).Value with
    | some customFont => some customFont
    | none => p.value
  else
    p.value

/-- The struct `Scoreboard::CustomizableTextColor`, derived from
`CustomizableProperty<EColorRange, FIntCVar>`. -/
structure CustomizableTextColor extends CustomizableProperty EColorRange FIntCVar

/-- The member `CustomizableTextColor::operator EColorRange( ) const`:
`( sb_customizeflags & flag ) ? static_cast<EColorRange>( cvar.GetGenericRep( CVAR_Int ).Int ) : value`. -/
def CustomizableTextColor.operatorEColorRange (sb_customizeflags : Int)
    (store : CVarStore FIntCVar) (p : CustomizableTextColor) : EColorRange :=
  if flagIsSet sb_customizeflags p.flag then (store p.cvar).GetGenericRepInt else p.value

/-! ### A property in its surroundings

Between two reads the program can assign to the property, and the user can change the
configuration variable or `sb_customizeflags`.  The operations below are those events;
`run` carries them out in order and records what every read returned. -/

/-- The state a read of a property can see: `sb_customizeflags`, the configuration
variables and the property object itself. -/
structure PropertyState (T CVar : Type) where
  sb_customizeflags : Int
  store : CVarStore CVar
  property : CustomizableProperty T CVar

/-- An event in the life of a property. -/
inductive PropertyOp (T CVar : Type) where
  /-- The statement `property = other`. -/
  | assign (other : T)
  /-- The configuration variable behind `ref` takes a new value. -/
  | setCVar (ref : CVarRef) (v : CVar)
  /-- The variable `sb_customizeflags` takes a new value. -/
  | setFlags (flags : Int)
  /-- The property is read through `operator Type`. -/
  | read

/-- What a read returns in a state: `operator Type` on the state's own components. -/
def PropertyState.readNow {T CVar : Type} (cast : CVar → T) (s : PropertyState T CVar) : T :=
  s.property.operatorType cast s.sb_customizeflags s.store

/-- Carry out one event: the next state and, for a read, the value returned.  The read is
a `const` member and leaves the state as it is. -/
def PropertyState.step {T CVar : Type} (cast : CVar → T) (s : PropertyState T CVar) :
    PropertyOp T CVar → PropertyState T CVar × Option T
  | .assign other => ({ s with property := s.property.operatorAssign other }, none)
  | .setCVar ref v => ({ s with store := s.store.set ref v }, none)
  | .setFlags flags => ({ s with sb_customizeflags := flags }, none)
  | .read => (s, some (s.readNow cast))

/-- Carry out a sequence of events: the final state and the values the reads returned,
in order. -/
def PropertyState.run {T CVar : Type} (cast : CVar → T) (s : PropertyState T CVar) :
    List (PropertyOp T CVar) → PropertyState T CVar × List T
  | [] => (s, [])
  | op :: ops =>
    let r := s.step cast op
    let rest := PropertyState.run cast r.1 ops
    (rest.1, r.2.toList ++ rest.2)

/-! ## Player ranking (scoreboard.h, lines 602-612) -/

/-- Modelled from the spec: a column of the rank order as the player comparator sees it.
The header declares `TArray<DataScoreColumn *> RankOrder` only; `DataScoreColumn::GetValue`
and the per-column sort direction are written in `scoreboard.cpp`.  The spec gives every
rank-order column a declared direction (higher-is-better or lower-is-better) and one
numeric value per player slot. -/
structure RankColumn where
  higherIsBetter : Bool
  GetValue : Nat → Int

/-- Whether the first value beats the second in a column's declared direction. -/
def RankColumn.better (column : RankColumn) (v1 v2 : Int) : Bool :=
  if column.higherIsBetter then decide (v2 < v1) else decide (v1 < v2)

/-- Modelled from the spec: `Scoreboard::PlayerComparator::operator( )( arg1, arg2 )`, whose
body is in `scoreboard.cpp`.  The spec: the primary key is the earliest rank-order column,
with a higher-is-better or lower-is-better rule declared per column, falling through to the
subsequent rank-order columns on ties; players tied on every column are not ordered by the
comparator (the stable sort keeps their slot order).  The result is `true` when player
`arg1` ranks strictly before player `arg2`. -/
def PlayerComparator (RankOrder : List RankColumn) (arg1 arg2 : Nat) : Bool :=
  match RankOrder with
  | [] => false
  | column :: rest =>
    if column.GetValue arg1 = column.GetValue arg2 then PlayerComparator rest arg1 arg2
    else column.better (column.GetValue arg1) (column.GetValue arg2)

/-- The relation the stable sort keeps between neighbours: the second player does not rank
strictly before the first. -/
def notWorse (RankOrder : List RankColumn) (arg1 arg2 : Nat) : Prop :=
  PlayerComparator RankOrder arg2 arg1 = false

instance (RankOrder : List RankColumn) : DecidableRel (notWorse RankOrder) :=
  fun a b => inferInstanceAs (Decidable (PlayerComparator RankOrder b a = false))

/-- Modelled from the spec: the refresh step that sorts the player slots of `ulPlayerList`
with the comparator, as a stable sort (`final tie-break = stable original slot order`).
Each player is inserted in front of the first player that does not rank strictly before
it. -/
def sortPlayers (RankOrder : List RankColumn) (ulPlayerList : List Nat) : List Nat :=
  ulPlayerList.insertionSort (notWorse RankOrder)

/-! ### Concrete data used to evaluate the definitions -/

/-- A font lookup that knows two fonts, numbered 1 and 2, and no other name. -/
def sampleFontLookup : String → Option Nat :=
  fun name => if name = "SmallFont" then some 1 else if name = "BigFont" then some 2 else none

/-- A string variable store in which `sb_customfont` names no font. -/
def sampleFontStore : CVarStore FStringCVar :=
  fun ref => if ref = "sb_customfont" then ⟨"NoSuchFont"⟩ else ⟨"BigFont"⟩

/-- A header font property gated by `CUSTOMIZE_TEXT` whose stored font is font 1. -/
def sampleHeaderFont : CustomizableFont Nat :=
  { cvar := "sb_customfont", flag := .CUSTOMIZE_TEXT, value := some 1 }

/-- A row font property gated by `CUSTOMIZE_TEXT`, bound to a variable naming `BigFont`. -/
def sampleRowFont : CustomizableFont Nat :=
  { cvar := "sb_customrowfont", flag := .CUSTOMIZE_TEXT, value := some 1 }

/-- An integer variable store in which every colour variable holds 9. -/
def sampleColorStore : CVarStore FIntCVar := fun _ => ⟨9⟩

/-- A header colour property gated by `CUSTOMIZE_TEXT` whose stored colour is 3. -/
def sampleHeaderColor : CustomizableTextColor :=
  { cvar := "sb_customheadercolor", flag := .CUSTOMIZE_TEXT, value := 3 }

/-- A background amount property gated by `CUSTOMIZE_BACKGROUND`, over integer values. -/
def sampleAmount : CustomizableProperty Int Int :=
  { cvar := "sb_custombackgroundamount", flag := .CUSTOMIZE_BACKGROUND, value := 50 }

/-- An integer store in which every variable holds 80. -/
def sampleAmountStore : CVarStore Int := fun _ => 80

/-- The frags of the three players of the ranking scenario, by slot. -/
def sampleFrags : Nat → Int := fun slot => if slot = 0 then 10 else if slot = 1 then 10 else 5

/-- The deaths of the three players of the ranking scenario, by slot. -/
def sampleDeaths : Nat → Int := fun slot => if slot = 0 then 2 else if slot = 1 then 1 else 0

/-- The rank order of the scenario: FRAGS, higher is better, then DEATHS, lower is better. -/
def sampleRankOrder : List RankColumn :=
  [{ higherIsBetter := true, GetValue := sampleFrags },
   { higherIsBetter := false, GetValue := sampleDeaths }]

end Scoreboard

/-! # Theorems -/

namespace Scoreboard

/-! ## Customizable properties -/

theorem flagIsSet_eq_false_iff (sb : Int) (flag : CustomizeScoreboardFlag) :
    flagIsSet sb flag = false ↔ customizeFlagsAnd sb flag = 0 := by
  simp [flagIsSet]

/-- C1: for the generic property, the font property and the text colour property alike,
when the flag bit is not set in `sb_customizeflags` (`sb_customizeflags & flag == 0`) a read
returns the stored default, whatever the configuration variable holds. -/
theorem read_flag_unset_returns_default {T CVar FFont : Type} (cast : CVar → T)
    (V_GetFont : String → Option FFont) (sb_customizeflags : Int)
    (store : CVarStore CVar) (fontStore : CVarStore FStringCVar)
    (colorStore : CVarStore FIntCVar)
    (p : CustomizableProperty T CVar) (font : CustomizableFont FFont)
    (color : CustomizableTextColor) :
    (customizeFlagsAnd sb_customizeflags p.flag = 0 →
      p.operatorType cast sb_customizeflags store = p.value) ∧
    (customizeFlagsAnd sb_customizeflags font.flag = 0 →
      font.operatorFFont V_GetFont sb_customizeflags fontStore = font.value) ∧
    (customizeFlagsAnd sb_customizeflags color.flag = 0 →
      color.operatorEColorRange sb_customizeflags colorStore = color.value) := by
  refine ⟨fun h => ?_, fun h => ?_, fun h => ?_⟩
  · simp [CustomizableProperty.operatorType, (flagIsSet_eq_false_iff _ _).2 h]
  · simp [CustomizableFont.operatorFFont, (flagIsSet_eq_false_iff _ _).2 h]
  · simp [CustomizableTextColor.operatorEColorRange, (flagIsSet_eq_false_iff _ _).2 h]

/-- C1 at concrete inputs: with `sb_customizeflags = 10` (borders and row backgrounds only)
the amount, the font and the colour all read as their stored defaults. -/
theorem read_flag_unset_returns_default_witness :
    sampleAmount.operatorType id 10 sampleAmountStore = 50 ∧
    sampleRowFont.operatorFFont sampleFontLookup 10 sampleFontStore = some 1 ∧
    sampleHeaderColor.operatorEColorRange 10 sampleColorStore = 3 :=
  have h := read_flag_unset_returns_default (id : Int → Int) sampleFontLookup 10
    sampleAmountStore sampleFontStore sampleColorStore sampleAmount sampleRowFont
    sampleHeaderColor
  ⟨h.1 (by decide), h.2.1 (by decide), h.2.2 (by decide)⟩

theorem flagIsSet_eq_true_iff (sb : Int) (flag : CustomizeScoreboardFlag) :
    flagIsSet sb flag = true ↔ customizeFlagsAnd sb flag ≠ 0 := by
  simp [flagIsSet]

/-- C2, the claim as written fails for the font property: with `CUSTOMIZE_TEXT` set and a
configuration variable naming no font, the read returns the stored font 1, which is not
what the variable converts to (the lookup answers null). -/
theorem read_flag_set_font_counterexample :
    customizeFlagsAnd 1 sampleHeaderFont.flag ≠ 0 ∧
    sampleFontLookup (sampleFontStore sampleHeaderFont.cvar).Value = none ∧
    sampleHeaderFont.operatorFFont sampleFontLookup 1 sampleFontStore = some 1 ∧
    sampleHeaderFont.operatorFFont sampleFontLookup 1 sampleFontStore ≠
      sampleFontLookup (sampleFontStore sampleHeaderFont.cvar).Value ∧
    sampleHeaderFont.operatorFFont sampleFontLookup 1 sampleFontStore =
      sampleHeaderFont.value := by
  decide

/-- C2 as amended: when the flag bit is set, the generic property and the text colour
property read as the configuration variable's current value converted to the property's
type, whatever the stored default; the font property reads as the font the variable's
string resolves to when there is one, and as the stored font when the lookup answers
null. -/
theorem read_flag_set_tracks_cvar {T CVar FFont : Type} (cast : CVar → T)
    (V_GetFont : String → Option FFont) (sb_customizeflags : Int)
    (store : CVarStore CVar) (fontStore : CVarStore FStringCVar)
    (colorStore : CVarStore FIntCVar)
    (p : CustomizableProperty T CVar) (font : CustomizableFont FFont)
    (color : CustomizableTextColor) :
    (customizeFlagsAnd sb_customizeflags p.flag ≠ 0 →
      p.operatorType cast sb_customizeflags store = cast (store p.cvar)) ∧
    (customizeFlagsAnd sb_customizeflags color.flag ≠ 0 →
      color.operatorEColorRange sb_customizeflags colorStore =
        (colorStore color.cvar).GetGenericRepInt) ∧
    (customizeFlagsAnd sb_customizeflags font.flag ≠ 0 →
      (∀ f, V_GetFont (fontStore font.cvar).Value = some f →
        font.operatorFFont V_GetFont sb_customizeflags fontStore = some f) ∧
      (V_GetFont (fontStore font.cvar).Value = none →
        font.operatorFFont V_GetFont sb_customizeflags fontStore = font.value)) := by
  refine ⟨fun h => ?_, fun h => ?_, fun h => ⟨fun f hf => ?_, fun hf => ?_⟩⟩
  · simp [CustomizableProperty.operatorType, (flagIsSet_eq_true_iff _ _).2 h]
  · simp [CustomizableTextColor.operatorEColorRange, (flagIsSet_eq_true_iff _ _).2 h]
  · simp [CustomizableFont.operatorFFont, (flagIsSet_eq_true_iff _ _).2 h, hf]
  · simp [CustomizableFont.operatorFFont, (flagIsSet_eq_true_iff _ _).2 h, hf]

/-- C2 as amended, at concrete inputs: with `sb_customizeflags = 5` (text and background)
the amount reads 80 and the colour 9, the values of their variables; the row font reads
font 2, which its variable names; the header font, whose variable names no font, reads
its stored font 1. -/
theorem read_flag_set_tracks_cvar_witness :
    sampleAmount.operatorType id 5 sampleAmountStore = 80 ∧
    sampleHeaderColor.operatorEColorRange 5 sampleColorStore = 9 ∧
    sampleRowFont.operatorFFont sampleFontLookup 5 sampleFontStore = some 2 ∧
    sampleHeaderFont.operatorFFont sampleFontLookup 5 sampleFontStore = some 1 :=
  have h := read_flag_set_tracks_cvar (id : Int → Int) sampleFontLookup 5
    sampleAmountStore sampleFontStore sampleColorStore sampleAmount sampleRowFont
    sampleHeaderColor
  have h' := read_flag_set_tracks_cvar (id : Int → Int) sampleFontLookup 5
    sampleAmountStore sampleFontStore sampleColorStore sampleAmount sampleHeaderFont
    sampleHeaderColor
  ⟨h.1 (by decide), h.2.1 (by decide), (h.2.2 (by decide)).1 2 (by decide),
    (h'.2.2 (by decide)).2 (by decide)⟩

theorem run_append {T CVar : Type} (cast : CVar → T) (s : PropertyState T CVar)
    (ops ops' : List (PropertyOp T CVar)) :
    s.run cast (ops ++ ops') =
      (((s.run cast ops).1.run cast ops').1,
        (s.run cast ops).2 ++ ((s.run cast ops).1.run cast ops').2) := by
  induction ops generalizing s with
  | nil => simp [PropertyState.run]
  | cons op ops ih => simp [PropertyState.run, ih, List.append_assoc]

/-- C3: assignment replaces only the stored default (flag and variable reference stay),
so a following read returns the assigned value when the flag bit is unset and the
configuration variable's value when it is set; a read leaves the state as it is; and in
any sequence of events every read returns `operator Type` of the state at that moment, in
particular across a change of the configuration variable or of `sb_customizeflags`. -/
theorem read_computed_on_every_read {T CVar : Type} (cast : CVar → T)
    (s : PropertyState T CVar) (x : T) (ref : CVarRef) (v : CVar) (flags : Int)
    (ops : List (PropertyOp T CVar)) :
    ((s.property.operatorAssign x).flag = s.property.flag ∧
      (s.property.operatorAssign x).cvar = s.property.cvar ∧
      (s.property.operatorAssign x).value = x) ∧
    (customizeFlagsAnd s.sb_customizeflags s.property.flag = 0 →
      (s.run cast [.assign x, .read]).2 = [x]) ∧
    (customizeFlagsAnd s.sb_customizeflags s.property.flag ≠ 0 →
      (s.run cast [.assign x, .read]).2 = [cast (s.store s.property.cvar)]) ∧
    (s.step cast .read).1 = s ∧
    (s.run cast (ops ++ [.read])).2 =
      (s.run cast ops).2 ++ [(s.run cast ops).1.readNow cast] ∧
    (s.run cast [.read, .setCVar ref v, .read]).2 =
      [s.property.operatorType cast s.sb_customizeflags s.store,
       s.property.operatorType cast s.sb_customizeflags (s.store.set ref v)] ∧
    (s.run cast [.read, .setFlags flags, .read]).2 =
      [s.property.operatorType cast s.sb_customizeflags s.store,
       s.property.operatorType cast flags s.store] := by
  refine ⟨⟨rfl, rfl, rfl⟩, fun h => ?_, fun h => ?_, rfl, ?_, rfl, rfl⟩
  · simp [PropertyState.run, PropertyState.step, PropertyState.readNow,
      CustomizableProperty.operatorType, CustomizableProperty.operatorAssign,
      (flagIsSet_eq_false_iff _ _).2 h]
  · simp [PropertyState.run, PropertyState.step, PropertyState.readNow,
      CustomizableProperty.operatorType, CustomizableProperty.operatorAssign,
      (flagIsSet_eq_true_iff _ _).2 h]
  · rw [run_append]
    simp [PropertyState.run, PropertyState.step]

/-- C3 at concrete inputs: the amount property (stored 50, variable 80) is assigned 65;
with the background bit unset the next read gives 65, with it set the next read gives 80. -/
theorem read_computed_on_every_read_witness :
    (PropertyState.run id ⟨2, sampleAmountStore, sampleAmount⟩ [.assign 65, .read]).2 = [65] ∧
    (PropertyState.run id ⟨4, sampleAmountStore, sampleAmount⟩ [.assign 65, .read]).2 = [80] :=
  ⟨(read_computed_on_every_read (id : Int → Int) ⟨2, sampleAmountStore, sampleAmount⟩ 65
      "" 0 0 []).2.1 (by decide),
   (read_computed_on_every_read (id : Int → Int) ⟨4, sampleAmountStore, sampleAmount⟩ 65
      "" 0 0 []).2.2.1 (by decide)⟩

/-- C10: for a font property whose flag bit is set, a configuration variable that names no
font (`V_GetFont` answers null) makes the read return the stored SCORINFO font, and one
that resolves to a font `f` makes it return `f`; and whatever the flags, the read is null
exactly when the stored font is null and the flag is unset or the lookup fails. -/
theorem font_read_falls_back_to_stored {FFont : Type} (V_GetFont : String → Option FFont)
    (sb_customizeflags : Int) (fontStore : CVarStore FStringCVar)
    (font : CustomizableFont FFont) :
    (customizeFlagsAnd sb_customizeflags font.flag ≠ 0 →
      (V_GetFont (fontStore font.cvar).Value = none →
        font.operatorFFont V_GetFont sb_customizeflags fontStore = font.value) ∧
      (∀ f, V_GetFont (fontStore font.cvar).Value = some f →
        font.operatorFFont V_GetFont sb_customizeflags fontStore = some f)) ∧
    (font.operatorFFont V_GetFont sb_customizeflags fontStore = none ↔
      (customizeFlagsAnd sb_customizeflags font.flag = 0 ∨
        V_GetFont (fontStore font.cvar).Value = none) ∧ font.value = none) := by
  constructor
  · intro h
    constructor
    · intro hf
      simp [CustomizableFont.operatorFFont, (flagIsSet_eq_true_iff _ _).2 h, hf]
    · intro f hf
      simp [CustomizableFont.operatorFFont, (flagIsSet_eq_true_iff _ _).2 h, hf]
  · by_cases h : customizeFlagsAnd sb_customizeflags font.flag = 0
    · simp [CustomizableFont.operatorFFont, (flagIsSet_eq_false_iff _ _).2 h, h]
    · cases hf : V_GetFont (fontStore font.cvar).Value with
      | none => simp [CustomizableFont.operatorFFont, (flagIsSet_eq_true_iff _ _).2 h, hf]
      | some f => simp [CustomizableFont.operatorFFont, (flagIsSet_eq_true_iff _ _).2 h, hf, h]

/-- C10 at concrete inputs: with the text bit set, the header font (variable names no font)
reads as its stored font 1 and the row font (variable names `BigFont`) reads as font 2. -/
theorem font_read_falls_back_to_stored_witness :
    sampleHeaderFont.operatorFFont sampleFontLookup 1 sampleFontStore = sampleHeaderFont.value ∧
    sampleRowFont.operatorFFont sampleFontLookup 1 sampleFontStore = some 2 :=
  ⟨((font_read_falls_back_to_stored sampleFontLookup 1 sampleFontStore sampleHeaderFont).1
      (by decide)).1 (by decide),
   ((font_read_falls_back_to_stored sampleFontLookup 1 sampleFontStore sampleRowFont).1
      (by decide)).2 2 (by decide)⟩

/-! ## Player ranking -/

theorem PlayerComparator_irrefl (ro : List RankColumn) (a : Nat) :
    PlayerComparator ro a a = false := by
  induction ro with
  | nil => rfl
  | cons c rest ih => simp [PlayerComparator, ih]

theorem PlayerComparator_asymm (ro : List RankColumn) (a b : Nat)
    (h : PlayerComparator ro a b = true) : PlayerComparator ro b a = false := by
  induction ro with
  | nil => simp [PlayerComparator] at h
  | cons c rest ih =>
    simp only [PlayerComparator, RankColumn.better] at h ⊢
    split_ifs at h ⊢ <;> simp_all <;> omega

theorem PlayerComparator_trans (ro : List RankColumn) (a b c : Nat)
    (hab : PlayerComparator ro a b = true) (hbc : PlayerComparator ro b c = true) :
    PlayerComparator ro a c = true := by
  induction ro with
  | nil => simp [PlayerComparator] at hab
  | cons col rest ih =>
    simp only [PlayerComparator, RankColumn.better] at hab hbc ⊢
    split_ifs at hab hbc ⊢ <;> simp_all <;> omega

theorem notWorse_trans (ro : List RankColumn) (a b c : Nat)
    (hab : notWorse ro a b) (hbc : notWorse ro b c) : notWorse ro a c := by
  unfold notWorse at *
  induction ro with
  | nil => rfl
  | cons col rest ih =>
    simp only [PlayerComparator, RankColumn.better] at hab hbc ⊢
    split_ifs at hab hbc ⊢ <;> simp_all <;> omega

theorem notWorse_total (ro : List RankColumn) (a b : Nat) :
    notWorse ro a b ∨ notWorse ro b a := by
  unfold notWorse
  cases h : PlayerComparator ro b a with
  | false => exact Or.inl rfl
  | true => exact Or.inr (PlayerComparator_asymm ro b a h)

theorem sortPlayers_sorted (ro : List RankColumn) (l : List Nat) :
    (sortPlayers ro l).Sorted (notWorse ro) := by
  haveI : IsTotal Nat (notWorse ro) := ⟨notWorse_total ro⟩
  haveI : IsTrans Nat (notWorse ro) := ⟨notWorse_trans ro⟩
  exact List.sorted_insertionSort (notWorse ro) l

theorem PlayerComparator_of_tied (ro : List RankColumn) (a b : Nat)
    (h : ∀ d ∈ ro, d.GetValue a = d.GetValue b) : PlayerComparator ro a b = false := by
  induction ro with
  | nil => rfl
  | cons c rest ih =>
    have hc := h c (by simp)
    simp only [PlayerComparator, hc, if_true]
    exact ih (fun d hd => h d (by simp [hd]))

theorem tied_of_incomparable (ro : List RankColumn) (a b : Nat)
    (hab : PlayerComparator ro a b = false) (hba : PlayerComparator ro b a = false) :
    ∀ d ∈ ro, d.GetValue a = d.GetValue b := by
  induction ro with
  | nil => simp
  | cons c rest ih =>
    simp only [PlayerComparator, RankColumn.better] at hab hba
    have hc : c.GetValue a = c.GetValue b := by
      by_contra hne
      split_ifs at hab hba <;> simp_all <;> omega
    rw [if_pos hc] at hab
    rw [if_pos hc.symm] at hba
    intro d hd
    rcases List.mem_cons.1 hd with rfl | hd
    · exact hc
    · exact ih hab hba d hd

theorem PlayerComparator_eq_true_iff (ro : List RankColumn) (a b : Nat) :
    PlayerComparator ro a b = true ↔
      ∃ pre col post, ro = pre ++ col :: post ∧
        (∀ d ∈ pre, d.GetValue a = d.GetValue b) ∧
        col.GetValue a ≠ col.GetValue b ∧
        col.better (col.GetValue a) (col.GetValue b) = true := by
  induction ro with
  | nil => simp [PlayerComparator]
  | cons c rest ih =>
    constructor
    · intro h
      simp only [PlayerComparator] at h
      split_ifs at h with heq
      · obtain ⟨pre, col, post, hro, hpre, hne, hb⟩ := ih.1 h
        refine ⟨c :: pre, col, post, by simp [hro], ?_, hne, hb⟩
        intro d hd
        rcases List.mem_cons.1 hd with rfl | hd
        · exact heq
        · exact hpre d hd
      · exact ⟨[], c, rest, rfl, by simp, heq, h⟩
    · rintro ⟨pre, col, post, hro, hpre, hne, hb⟩
      cases pre with
      | nil =>
        simp only [List.nil_append, List.cons.injEq] at hro
        obtain ⟨rfl, rfl⟩ := hro
        simp [PlayerComparator, hne, hb]
      | cons d pre =>
        simp only [List.cons_append, List.cons.injEq] at hro
        obtain ⟨rfl, rfl⟩ := hro
        have hd := hpre c (by simp)
        simp only [PlayerComparator, hd, if_true]
        exact ih.2 ⟨pre, col, post, rfl, fun e he => hpre e (by simp [he]), hne, hb⟩

/-- C5: for a fixed rank order and fixed player values the comparator is a strict weak
ordering on player slots: irreflexive, asymmetric, transitive, with transitive
incomparability; and sorting an already sorted player list with it gives that list back,
so sorting twice yields the same order as sorting once. -/
theorem PlayerComparator_strict_weak_ordering (ro : List RankColumn) :
    (∀ a, PlayerComparator ro a a = false) ∧
    (∀ a b, PlayerComparator ro a b = true → PlayerComparator ro b a = false) ∧
    (∀ a b c, PlayerComparator ro a b = true → PlayerComparator ro b c = true →
      PlayerComparator ro a c = true) ∧
    (∀ a b c, PlayerComparator ro a b = false → PlayerComparator ro b a = false →
      PlayerComparator ro b c = false → PlayerComparator ro c b = false →
      PlayerComparator ro a c = false ∧ PlayerComparator ro c a = false) ∧
    (∀ l, sortPlayers ro (sortPlayers ro l) = sortPlayers ro l) := by
  refine ⟨PlayerComparator_irrefl ro, PlayerComparator_asymm ro, PlayerComparator_trans ro,
    ?_, ?_⟩
  · intro a b c hab hba hbc hcb
    exact ⟨notWorse_trans ro c b a hbc hab, notWorse_trans ro a b c hba hcb⟩
  · intro l
    exact List.Sorted.insertionSort_eq (sortPlayers_sorted ro l)

/-- C5 at concrete inputs, on the FRAGS then DEATHS rank order: slot 1 ranks before slot 0
and slot 0 before slot 2, hence slot 1 before slot 2 and not the other way round. -/
theorem PlayerComparator_strict_weak_ordering_witness :
    PlayerComparator sampleRankOrder 1 2 = true ∧
    PlayerComparator sampleRankOrder 2 1 = false ∧
    sortPlayers sampleRankOrder (sortPlayers sampleRankOrder [0, 1, 2]) =
      sortPlayers sampleRankOrder [0, 1, 2] :=
  have h := PlayerComparator_strict_weak_ordering sampleRankOrder
  ⟨h.2.2.1 1 0 2 (by decide) (by decide),
   h.2.1 1 2 (h.2.2.1 1 0 2 (by decide) (by decide)),
   h.2.2.2.2 [0, 1, 2]⟩

/-- C6: the comparator is lexicographic over the rank order: one player ranks strictly
before another exactly when, on the earliest column where their values differ, the first
has the better value in that column's declared direction.  The sorted list is a
rearrangement of the player list in which no player stands behind one it ranks strictly
before, so of two players in the result the first either wins on the earliest differing
column or is tied with the second on every column; and two players tied on every column
keep their original order.  On the scenario (FRAGS higher-better, DEATHS lower-better,
players (10,2), (10,1), (5,0) in slots 0, 1, 2) the order is slot 1, slot 0, slot 2. -/
theorem ranking_is_lexicographic (ro : List RankColumn) (l : List Nat) (a b : Nat) :
    (PlayerComparator ro a b = true ↔
      ∃ pre col post, ro = pre ++ col :: post ∧
        (∀ d ∈ pre, d.GetValue a = d.GetValue b) ∧
        col.GetValue a ≠ col.GetValue b ∧
        col.better (col.GetValue a) (col.GetValue b) = true) ∧
    (sortPlayers ro l).Perm l ∧
    (List.Sublist [a, b] (sortPlayers ro l) →
      PlayerComparator ro a b = true ∨ ∀ d ∈ ro, d.GetValue a = d.GetValue b) ∧
    ((∀ d ∈ ro, d.GetValue a = d.GetValue b) → List.Sublist [a, b] l →
      List.Sublist [a, b] (sortPlayers ro l)) ∧
    sortPlayers sampleRankOrder [0, 1, 2] = [1, 0, 2] := by
  refine ⟨PlayerComparator_eq_true_iff ro a b, List.perm_insertionSort _ l, ?_, ?_, by decide⟩
  · intro hsub
    have hba : PlayerComparator ro b a = false :=
      List.pairwise_iff_forall_sublist.1 (sortPlayers_sorted ro l) hsub
    cases hab : PlayerComparator ro a b with
    | true => exact Or.inl rfl
    | false => exact Or.inr (tied_of_incomparable ro a b hab hba)
  · intro htie hsub
    have hba : notWorse ro a b :=
      PlayerComparator_of_tied ro b a (fun d hd => (htie d hd).symm)
    exact List.pair_sublist_insertionSort hba hsub

/-- C6 at concrete inputs: in the scenario's result slot 1 (10,1) stands before slot 0
(10,2), and it does so by ranking strictly before it. -/
theorem ranking_is_lexicographic_witness :
    List.Sublist [1, 0] (sortPlayers sampleRankOrder [0, 1, 2]) ∧
    (PlayerComparator sampleRankOrder 1 0 = true ∨
      ∀ d ∈ sampleRankOrder, d.GetValue 1 = d.GetValue 0) ∧
    sortPlayers sampleRankOrder [0, 1, 2] = [1, 0, 2] :=
  have h := ranking_is_lexicographic sampleRankOrder [0, 1, 2] 1 0
  have hsub : List.Sublist [1, 0] (sortPlayers sampleRankOrder [0, 1, 2]) := by decide
  ⟨hsub, h.2.2.1 hsub, h.2.2.2.2⟩

end Scoreboard

/-! ## Columns -/

theorem foldl_gap_sum (gap : Nat) (f : Nat → Nat) (n : Nat) :
    (List.range n).foldl (fun acc i => (if 0 < i then acc + gap else acc) + f i) 0 =
      ((List.range n).map f).sum + (n - 1) * gap := by
  induction n with
  | zero => simp
  | succ n ih =>
    rw [List.range_succ, List.foldl_append, ih, List.map_append, List.sum_append]
    rcases n with _ | m
    · simp
    · simp only [List.foldl_cons, List.foldl_nil, List.map_cons, List.map_nil, List.sum_cons,
        List.sum_nil, Nat.zero_lt_succ, if_true, Nat.add_sub_cancel]
      rw [Nat.succ_mul]
      omega

theorem subColumn_widths_eq (c : CompositeScoreColumn) :
    (List.range c.SubColumns.length).map
        (fun i => c.GetSubColumnWidth i (c.contentWidthAt i)) =
      c.SubColumns.map (fun sub => max sub.contentWidth sub.minimumWidth) := by
  apply List.ext_getElem
  · simp
  · intro i h1 h2
    have hi : i < c.SubColumns.length := by simpa using h1
    simp [CompositeScoreColumn.GetSubColumnWidth, CompositeScoreColumn.contentWidthAt,
      List.getElem?_eq_getElem hi]

theorem composite_width_nat (c : CompositeScoreColumn) :
    c.Update.ulWidth =
      (c.SubColumns.map (fun sub => max sub.contentWidth sub.minimumWidth)).sum +
        (c.SubColumns.length - 1) * c.ulGapBetweenSubColumns := by
  rw [← subColumn_widths_eq]
  exact foldl_gap_sum c.ulGapBetweenSubColumns
    (fun i => c.GetSubColumnWidth i (c.contentWidthAt i)) c.SubColumns.length

/-- C7: for a composite column with `n >= 1` sub-columns, the width after `Update` is the sum
of the sub-columns' widths plus `(n - 1)` times `ulGapBetweenSubColumns` (as integers),
where the width of each sub-column is the maximum of its content width and its configured
minimum; with a single sub-column the width is that sub-column's width and the gap does
not enter.  `Update` leaves the sub-columns and the gap as they are. -/
theorem composite_width_after_update (c : CompositeScoreColumn)
    (hn : 1 ≤ c.SubColumns.length) :
    (c.Update.ulWidth : Int) =
        ((c.SubColumns.map (fun sub => max sub.contentWidth sub.minimumWidth)).sum : Nat) +
          ((c.SubColumns.length : Int) - 1) * (c.ulGapBetweenSubColumns : Int) ∧
    (∀ i, i < c.SubColumns.length →
      c.GetSubColumnWidth i (c.contentWidthAt i) =
        max (c.SubColumns.getD i ⟨0, 0⟩).contentWidth
          (c.SubColumns.getD i ⟨0, 0⟩).minimumWidth) ∧
    (∀ sub, c.SubColumns = [sub] →
      c.Update.ulWidth = max sub.contentWidth sub.minimumWidth) ∧
    c.Update.SubColumns = c.SubColumns ∧
    c.Update.ulGapBetweenSubColumns = c.ulGapBetweenSubColumns := by
  refine ⟨?_, ?_, ?_, rfl, rfl⟩
  · rw [composite_width_nat c]
    push_cast [Nat.cast_sub hn]
    ring
  · intro i hi
    simp [CompositeScoreColumn.GetSubColumnWidth, CompositeScoreColumn.contentWidthAt,
      List.getElem?_eq_getElem hi]
  · intro sub hsub
    rw [composite_width_nat c, hsub]
    simp

/-- C7 at concrete inputs: sub-columns (content, minimum) = (10,0), (3,8), (7,7) with gap 4
give width 10 + 8 + 7 + 2 * 4 = 33; a single sub-column (5,12) gives width 12. -/
theorem composite_width_after_update_witness :
    sampleComposite.Update.ulWidth = 33 ∧ sampleSingleComposite.Update.ulWidth = 12 :=
  ⟨Int.ofNat.inj (composite_width_after_update sampleComposite (by decide)).1,
   (composite_width_after_update sampleSingleComposite (by decide)).2.2.1 ⟨5, 12⟩ rfl⟩

/-- C8: for a column of width `W` and a content width `C <= W`, `GetAlignmentPosition( C )`
is 0 for left alignment, `W - C` for right alignment and the floor of `(W - C) / 2` for
center alignment, which is the value of `SCOREBOARD_CenterAlign( W, C )` (for `C <= W` the
floor and the quotient rounded toward zero agree); when `W = C` the offset is 0 in all
three modes. -/
theorem alignment_position (W C : Nat) (h : C ≤ W) :
    (ScoreColumn.mk .HORIZALIGN_LEFT W).GetAlignmentPosition C = 0 ∧
    (ScoreColumn.mk .HORIZALIGN_RIGHT W).GetAlignmentPosition C = ((W - C : Nat) : Int) ∧
    (ScoreColumn.mk .HORIZALIGN_CENTER W).GetAlignmentPosition C =
      (((W - C) / 2 : Nat) : Int) ∧
    (ScoreColumn.mk .HORIZALIGN_CENTER W).GetAlignmentPosition C =
      SCOREBOARD_CenterAlign W C ∧
    SCOREBOARD_CenterAlign W C = Int.tdiv ((W : Int) - C) 2 ∧
    (W = C → ∀ alignment, (ScoreColumn.mk alignment W).GetAlignmentPosition C = 0) := by
  have hc : SCOREBOARD_CenterAlign W C = (((W - C) / 2 : Nat) : Int) := by
    unfold SCOREBOARD_CenterAlign
    rw [← Int.ofNat_sub h]
    exact (Int.ofNat_fdiv (W - C) 2).symm
  have ht : SCOREBOARD_CenterAlign W C = Int.tdiv ((W : Int) - C) 2 := by
    unfold SCOREBOARD_CenterAlign
    exact Int.fdiv_eq_tdiv (by omega) (by decide)
  refine ⟨rfl, ?_, hc, rfl, ht, ?_⟩
  · simp only [ScoreColumn.GetAlignmentPosition]
    omega
  · intro hWC alignment
    subst hWC
    cases alignment
    · rfl
    · simp only [ScoreColumn.GetAlignmentPosition, hc]
      simp
    · simp only [ScoreColumn.GetAlignmentPosition]
      omega

/-- C8 at concrete inputs: width 10 and content 3 give offsets 0, 7 and 3; width 8 and
content 8 give offset 0 when centered. -/
theorem alignment_position_witness :
    (ScoreColumn.mk .HORIZALIGN_LEFT 10).GetAlignmentPosition 3 = 0 ∧
    (ScoreColumn.mk .HORIZALIGN_RIGHT 10).GetAlignmentPosition 3 = 7 ∧
    (ScoreColumn.mk .HORIZALIGN_CENTER 10).GetAlignmentPosition 3 = 3 ∧
    (ScoreColumn.mk .HORIZALIGN_CENTER 8).GetAlignmentPosition 8 = 0 :=
  ⟨(alignment_position 10 3 (by decide)).1,
   (alignment_position 10 3 (by decide)).2.1,
   (alignment_position 10 3 (by decide)).2.2.1,
   (alignment_position 8 8 (by decide)).2.2.2.2.2 rfl .HORIZALIGN_CENTER⟩

/-- C9: with `NUM_FLAGS_PER_SIDE = 16`, every index in 0..255 maps to a cell whose row and
column lie in 0..15 with `row * 16 + col = index`; distinct indices select distinct cells;
and every cell of the 16x16 grid is selected by exactly one index in 0..255. -/
theorem flagCell_bijective :
    CountryFlagScoreColumn.NUM_FLAGS_PER_SIDE = 16 ∧
    (∀ index, index < 256 →
      (CountryFlagScoreColumn.flagCell index).1 < 16 ∧
      (CountryFlagScoreColumn.flagCell index).2 < 16 ∧
      (CountryFlagScoreColumn.flagCell index).1 * 16 +
        (CountryFlagScoreColumn.flagCell index).2 = index) ∧
    (∀ i j, i < 256 → j < 256 →
      CountryFlagScoreColumn.flagCell i = CountryFlagScoreColumn.flagCell j → i = j) ∧
    (∀ row col, row < 16 → col < 16 →
      ∃! index, index < 256 ∧ CountryFlagScoreColumn.flagCell index = (row, col)) := by
  refine ⟨rfl, ?_, ?_, ?_⟩
  · intro index h
    simp only [CountryFlagScoreColumn.flagCell, CountryFlagScoreColumn.NUM_FLAGS_PER_SIDE]
    omega
  · intro i j _ _ hij
    simp only [CountryFlagScoreColumn.flagCell, CountryFlagScoreColumn.NUM_FLAGS_PER_SIDE,
      Prod.mk.injEq] at hij
    omega
  · intro row col hr hc
    refine ⟨row * 16 + col, ⟨by omega, ?_⟩, ?_⟩
    · simp only [CountryFlagScoreColumn.flagCell, CountryFlagScoreColumn.NUM_FLAGS_PER_SIDE,
        Prod.mk.injEq]
      omega
    · rintro index ⟨_, hidx⟩
      simp only [CountryFlagScoreColumn.flagCell, CountryFlagScoreColumn.NUM_FLAGS_PER_SIDE,
        Prod.mk.injEq] at hidx
      omega

/-- C9 at concrete inputs: index 200 selects row 12, column 8, and 12 * 16 + 8 = 200. -/
theorem flagCell_bijective_witness :
    (CountryFlagScoreColumn.flagCell 200).1 < 16 ∧
    (CountryFlagScoreColumn.flagCell 200).2 < 16 ∧
    (CountryFlagScoreColumn.flagCell 200).1 * 16 +
      (CountryFlagScoreColumn.flagCell 200).2 = 200 :=
  flagCell_bijective.2.1 200 (by decide)

/-! ## Margins -/

/-- C11: for a margin whose height is a `ULONG` of `w` bits, `IncreaseHeight( e )` makes
`GetHeight` return the previous height plus `e` modulo `2 ^ w` (exactly the sum when it
fits), and leaves width, relative X, type, name and command block as they are; two
increases by `a` and `b` give the same margin as one increase by `a + b`, in either order;
and an increase by 0 changes nothing. -/
theorem IncreaseHeight_adds_height {BaseCommand : Type} (w : Nat)
    (m : ScoreMargin BaseCommand) (a b e : Nat) (hm : m.ulHeight < 2 ^ w) :
    (m.IncreaseHeight w e).GetHeight = (m.GetHeight + e) % 2 ^ w ∧
    (m.GetHeight + e < 2 ^ w → (m.IncreaseHeight w e).GetHeight = m.GetHeight + e) ∧
    ((m.IncreaseHeight w e).GetWidth = m.GetWidth ∧
      (m.IncreaseHeight w e).GetRelX = m.GetRelX ∧
      (m.IncreaseHeight w e).GetType = m.GetType ∧
      (m.IncreaseHeight w e).GetName = m.GetName ∧
      (m.IncreaseHeight w e).Block = m.Block) ∧
    (m.IncreaseHeight w a).IncreaseHeight w b = m.IncreaseHeight w (a + b) ∧
    (m.IncreaseHeight w a).IncreaseHeight w b = m.IncreaseHeight w ((a + b) % 2 ^ w) ∧
    (m.IncreaseHeight w a).IncreaseHeight w b = (m.IncreaseHeight w b).IncreaseHeight w a ∧
    m.IncreaseHeight w 0 = m := by
  refine ⟨rfl, fun h => ?_, ⟨rfl, rfl, rfl, rfl, rfl⟩, ?_, ?_, ?_, ?_⟩
  · simp only [ScoreMargin.GetHeight, ScoreMargin.IncreaseHeight] at h ⊢
    exact Nat.mod_eq_of_lt h
  · simp only [ScoreMargin.IncreaseHeight, Nat.mod_add_mod, Nat.add_assoc]
  · simp only [ScoreMargin.IncreaseHeight, Nat.mod_add_mod, Nat.add_mod_mod, Nat.add_assoc]
  · simp only [ScoreMargin.IncreaseHeight, Nat.mod_add_mod, Nat.add_assoc, Nat.add_comm a b]
  · cases m
    simp only [ScoreMargin.IncreaseHeight, Nat.add_zero] at hm ⊢
    rw [Nat.mod_eq_of_lt hm]

/-- C11 at concrete inputs, with a 32-bit `ULONG`: a margin of height 40 increased by 12
has height 52, and increasing by 0 gives the margin back. -/
theorem IncreaseHeight_adds_height_witness :
    (sampleMargin.IncreaseHeight 32 12).GetHeight = 52 ∧
    sampleMargin.IncreaseHeight 32 0 = sampleMargin :=
  have h := IncreaseHeight_adds_height 32 sampleMargin 5 7 12 (by decide)
  ⟨h.2.1 (by decide), h.2.2.2.2.2.2⟩

namespace Scoreboard

/-! ## Customize flags -/

theorem CustomizeScoreboardFlag_toNat_eq (flag : CustomizeScoreboardFlag) :
    flag.toNat = 2 ^ flag.shift := by
  cases flag <;> rfl

theorem flagIsSet_eq_testBit (sb : Int) (flag : CustomizeScoreboardFlag) :
    flagIsSet sb flag = (intBits sb).testBit flag.shift := by
  unfold flagIsSet customizeFlagsAnd
  rw [CustomizeScoreboardFlag_toNat_eq]
  cases hbit : (intBits sb).testBit flag.shift with
  | false =>
    have hzero : intBits sb &&& 2 ^ flag.shift = 0 := by
      apply Nat.eq_of_testBit_eq
      intro i
      rw [Nat.testBit_and, Nat.testBit_two_pow, Nat.zero_testBit]
      by_cases hi : flag.shift = i
      · subst hi
        simp [hbit]
      · simp [hi]
    simp [hzero]
  | true =>
    have hne : intBits sb &&& 2 ^ flag.shift ≠ 0 := by
      intro hzero
      have h := Nat.testBit_and (intBits sb) (2 ^ flag.shift) flag.shift
      rw [hzero, Nat.zero_testBit, Nat.testBit_two_pow, hbit] at h
      simp at h
    simp [hne]

/-- C12: the four customize flags have the values 1, 2, 4 and 8: each is non-zero, a single
bit `2 ^ k`, and any two different flags share no bit.  So a read of a property gated by
flag `F` depends on `sb_customizeflags` only through bit `F`: for two values of
`sb_customizeflags` whose bit patterns agree on that bit, and the same stored default and
configuration variable, the generic property reads the same (and so do the font and the
text colour property). -/
theorem property_depends_only_on_flag_bit {T CVar FFont : Type} (cast : CVar → T)
    (V_GetFont : String → Option FFont) (sb1 sb2 : Int)
    (store : CVarStore CVar) (fontStore : CVarStore FStringCVar)
    (colorStore : CVarStore FIntCVar)
    (p : CustomizableProperty T CVar) (font : CustomizableFont FFont)
    (color : CustomizableTextColor) :
    (CustomizeScoreboardFlag.CUSTOMIZE_TEXT.toNat = 1 ∧
      CustomizeScoreboardFlag.CUSTOMIZE_BORDERS.toNat = 2 ∧
      CustomizeScoreboardFlag.CUSTOMIZE_BACKGROUND.toNat = 4 ∧
      CustomizeScoreboardFlag.CUSTOMIZE_ROWBACKGROUNDS.toNat = 8) ∧
    (∀ f : CustomizeScoreboardFlag, f.toNat ≠ 0 ∧ f.toNat = 2 ^ f.shift) ∧
    (∀ f g : CustomizeScoreboardFlag, f ≠ g → f.toNat &&& g.toNat = 0) ∧
    ((intBits sb1).testBit p.flag.shift = (intBits sb2).testBit p.flag.shift →
      p.operatorType cast sb1 store = p.operatorType cast sb2 store) ∧
    ((intBits sb1).testBit font.flag.shift = (intBits sb2).testBit font.flag.shift →
      font.operatorFFont V_GetFont sb1 fontStore =
        font.operatorFFont V_GetFont sb2 fontStore) ∧
    ((intBits sb1).testBit color.flag.shift = (intBits sb2).testBit color.flag.shift →
      color.operatorEColorRange sb1 colorStore =
        color.operatorEColorRange sb2 colorStore) := by
  refine ⟨⟨rfl, rfl, rfl, rfl⟩, ?_, ?_, fun h => ?_, fun h => ?_, fun h => ?_⟩
  · intro f
    cases f <;> exact ⟨by decide, rfl⟩
  · intro f g hfg
    cases f <;> cases g <;> first | exact absurd rfl hfg | rfl
  · simp only [CustomizableProperty.operatorType, flagIsSet_eq_testBit, h]
  · simp only [CustomizableFont.operatorFFont, flagIsSet_eq_testBit, h]
  · simp only [CustomizableTextColor.operatorEColorRange, flagIsSet_eq_testBit, h]

/-- C12 at concrete inputs: `sb_customizeflags = 4` and `sb_customizeflags = -9` (every bit
but bit 3) agree on the background bit, and the amount property reads 80 under both. -/
theorem property_depends_only_on_flag_bit_witness :
    sampleAmount.operatorType id 4 sampleAmountStore =
      sampleAmount.operatorType id (-9) sampleAmountStore ∧
    sampleAmount.operatorType id (-9) sampleAmountStore = 80 :=
  have h := property_depends_only_on_flag_bit (id : Int → Int) sampleFontLookup 4 (-9)
    sampleAmountStore sampleFontStore sampleColorStore sampleAmount sampleRowFont
    sampleHeaderColor
  ⟨h.2.2.2.1 (by decide), by decide⟩

end Scoreboard

/-! ## Column names -/

theorem String_length_pos_iff (s : String) : s.length > 0 ↔ s ≠ "" := by
  rw [gt_iff_lt, Nat.pos_iff_ne_zero, ne_eq, ne_eq, String.ext_iff]
  show ¬ s.data.length = 0 ↔ ¬ s.data = []
  rw [List.length_eq_zero]

/-- C13: `GetDisplayName` returns null exactly when the stored `DisplayName` is empty and
otherwise returns the stored `DisplayName`; `GetShortName` does the same for `ShortName`;
each of the two depends on its own member only, whatever the other names are; and
`GetInternalName` always returns the internal name, never null. -/
theorem optional_column_names (c other : ScoreColumnNames) :
    (c.GetDisplayName = none ↔ c.DisplayName = "") ∧
    (c.DisplayName ≠ "" → c.GetDisplayName = some c.DisplayName) ∧
    (c.GetShortName = none ↔ c.ShortName = "") ∧
    (c.ShortName ≠ "" → c.GetShortName = some c.ShortName) ∧
    (c.DisplayName = other.DisplayName → c.GetDisplayName = other.GetDisplayName) ∧
    (c.ShortName = other.ShortName → c.GetShortName = other.GetShortName) ∧
    c.GetInternalName = some c.InternalName ∧
    (c.InternalName = other.InternalName → c.GetInternalName = other.GetInternalName) := by
  refine ⟨?_, fun h => ?_, ?_, fun h => ?_, fun h => ?_, fun h => ?_, rfl, fun h => ?_⟩
  · by_cases h : c.DisplayName = ""
    · simp [ScoreColumnNames.GetDisplayName, h]
    · simp [ScoreColumnNames.GetDisplayName, (String_length_pos_iff _).2 h, h]
  · simp [ScoreColumnNames.GetDisplayName, (String_length_pos_iff _).2 h]
  · by_cases h : c.ShortName = ""
    · simp [ScoreColumnNames.GetShortName, h]
    · simp [ScoreColumnNames.GetShortName, (String_length_pos_iff _).2 h, h]
  · simp [ScoreColumnNames.GetShortName, (String_length_pos_iff _).2 h]
  · simp only [ScoreColumnNames.GetDisplayName, h]
  · simp only [ScoreColumnNames.GetShortName, h]
  · simp only [ScoreColumnNames.GetInternalName, h]

/-- C13 at concrete inputs: the column named `Frags` with display name `Frags scored` and no
short name returns its display name, and a column that shares only the display name
returns the same. -/
theorem optional_column_names_witness :
    sampleFragsColumn.GetDisplayName = some "Frags scored" ∧
    sampleFragsColumn.GetDisplayName =
      (ScoreColumnNames.mk "Deaths" "Frags scored" "F").GetDisplayName :=
  have h := optional_column_names sampleFragsColumn ⟨"Deaths", "Frags scored", "F"⟩
  ⟨h.2.1 (by decide), h.2.2.2.2.1 rfl⟩
